import Mathlib

/-!
Verification of `@apify/storage-local`: shallow embedding of
`src/resource_clients/key_value_store.js` and
`src/database_connection_cache.ts`, with theorems settling the spec claims.
-/

deriving instance DecidableEq for Except

namespace ApifyLocal

/-- Model of a JavaScript `Error` object as surfaced by the library:
its constructor name (`Error`, `TypeError`, ...), its `message`, and the
optional `code` property (`'ENOENT'` for not-found conditions). -/
structure JsErr where
  name : String
  message : String
  code : Option String
deriving DecidableEq, Repr

/-- `_throw404()` (key_value_store.js:361-365): an `Error` carrying
`code = 'ENOENT'` and the store name in the message. -/
def storeNotFoundErr (storeName : String) : JsErr :=
  ⟨"Error", "Key-value store with id: " ++ storeName ++ " does not exist.", some "ENOENT"⟩

/-- The `TypeError` JavaScript raises when `lastSelectedItem.key` is
evaluated with `lastSelectedItem === undefined` (key_value_store.js:149). -/
def undefinedKeyErr : JsErr :=
  ⟨"TypeError", "Cannot read property key of undefined", none⟩

/-- One element of the `items` array built by `listKeys`
(key_value_store.js:120-123): the parsed file name and the stat size. -/
structure KeyItem where
  key : String
  size : Nat
deriving DecidableEq, Repr

/-- `path.parse(file).name` for a plain base name (key_value_store.js:121):
the file name with its last extension stripped, where the extension exists
only when some non-dot character precedes the last dot (so dotfiles such as
`.json` keep their full name). -/
def stemLen (f : String) : Nat :=
  f.data.length - (f.data.reverse.takeWhile (fun c => c ≠ '.')).length - 1

def parseName (f : String) : String :=
  if f.data.contains '.' ∧ (f.data.take (stemLen f)).any (fun c => c ≠ '.') then
    String.mk (f.data.take (stemLen f))
  else f

/-- Lexicographic `<` on character lists: the comparison JavaScript performs
for `a.key < b.key` in the sort comparator (key_value_store.js:130-134). -/
def charListLt : List Char → List Char → Bool
  | [], [] => false
  | [], _ :: _ => true
  | _ :: _, [] => false
  | a :: as, b :: bs => if a < b then true else if b < a then false else charListLt as bs

theorem charListLt_asymm : ∀ {l₁ l₂ : List Char},
    charListLt l₁ l₂ = true → charListLt l₂ l₁ = false
  | [], [], h => by simp [charListLt] at h
  | [], _ :: _, _ => rfl
  | _ :: _, [], h => by simp [charListLt] at h
  | a :: as, b :: bs, h => by
    rcases lt_trichotomy a b with hab | hab | hab
    · simp [charListLt, hab, lt_asymm hab]
    · subst hab
      simp only [charListLt, lt_irrefl, if_false] at h ⊢
      exact charListLt_asymm h
    · simp [charListLt, lt_asymm hab, hab] at h

theorem charListLt_trans : ∀ {l₁ l₂ l₃ : List Char},
    charListLt l₁ l₂ = true → charListLt l₂ l₃ = true → charListLt l₁ l₃ = true
  | [], [], _, h, _ => by simp [charListLt] at h
  | [], _ :: _, [], _, h => by simp [charListLt] at h
  | [], _ :: _, _ :: _, _, _ => rfl
  | _ :: _, [], _, h, _ => by simp [charListLt] at h
  | _ :: _, _ :: _, [], _, h => by simp [charListLt] at h
  | a :: as, b :: bs, c :: cs, h₁, h₂ => by
    rcases lt_trichotomy a b with hab | hab | hab
    · rcases lt_trichotomy b c with hbc | hbc | hbc
      · simp [charListLt, lt_trans hab hbc]
      · subst hbc; simp [charListLt, hab]
      · simp [charListLt, lt_asymm hbc, hbc] at h₂
    · subst hab
      simp only [charListLt, lt_irrefl, if_false] at h₁
      rcases lt_trichotomy a c with hac | hac | hac
      · simp [charListLt, hac]
      · subst hac
        simp only [charListLt, lt_irrefl, if_false] at h₂ ⊢
        exact charListLt_trans h₁ h₂
      · simp [charListLt, lt_asymm hac, hac] at h₂
    · simp [charListLt, lt_asymm hab, hab] at h₁

theorem charListLt_connex : ∀ {l₁ l₂ : List Char},
    charListLt l₁ l₂ = false → charListLt l₂ l₁ = false → l₁ = l₂
  | [], [], _, _ => rfl
  | [], _ :: _, h, _ => by simp [charListLt] at h
  | _ :: _, [], _, h => by simp [charListLt] at h
  | a :: as, b :: bs, h₁, h₂ => by
    rcases lt_trichotomy a b with hab | hab | hab
    · simp [charListLt, hab] at h₁
    · subst hab
      simp only [charListLt, lt_irrefl, if_false] at h₁ h₂
      exact congrArg (a :: ·) (charListLt_connex h₁ h₂)
    · simp [charListLt, hab] at h₂

/-- JavaScript `a < b` on strings. -/
def strLtB (a b : String) : Bool := charListLt a.data b.data

/-- Key order used by the comparator at key_value_store.js:130-134:
`a` sorts no later than `b` when `b.key < a.key` fails. -/
def keyLe (a b : KeyItem) : Prop := strLtB b.key a.key = false

/-- Strict version of `keyLe`. -/
def keyLt (a b : KeyItem) : Prop := strLtB a.key b.key = true

instance : DecidableRel keyLe := fun a b =>
  inferInstanceAs (Decidable (strLtB b.key a.key = false))

instance : DecidableRel keyLt := fun a b =>
  inferInstanceAs (Decidable (strLtB a.key b.key = true))

instance : IsTotal KeyItem keyLe := ⟨fun a b => by
  unfold keyLe strLtB
  by_cases h : charListLt b.key.data a.key.data = true
  · exact Or.inr (charListLt_asymm h)
  · exact Or.inl (Bool.eq_false_iff.mpr h)⟩

instance : IsTrans KeyItem keyLe := ⟨fun a b c h₁ h₂ => by
  unfold keyLe strLtB at h₁ h₂ ⊢
  cases hca : charListLt c.key.data a.key.data with
  | false => rfl
  | true =>
    exfalso
    by_cases hbc : charListLt b.key.data c.key.data = true
    · have := charListLt_trans hbc hca
      rw [h₁] at this
      exact Bool.false_ne_true this
    · have hdata : b.key.data = c.key.data :=
        charListLt_connex (Bool.eq_false_iff.mpr hbc) h₂
      rw [← hdata] at hca
      rw [h₁] at hca
      exact Bool.false_ne_true hca⟩

instance : IsAntisymm KeyItem keyLt :=
  ⟨fun _ _ h₁ h₂ => absurd h₂ (Bool.eq_false_iff.mp (charListLt_asymm h₁))⟩

/-- `items.sort(comparator)` (key_value_store.js:129-134): the ECMAScript
sort is stable and the comparator orders by `key` only, so the result is the
stable ascending sort by key. -/
def sortByKey (l : List KeyItem) : List KeyItem := List.insertionSort keyLe l

/-- The raw directory listing turned into stat-ed, lexically sorted items
(key_value_store.js:114-134). `stat f = none` models a file that vanished
between `readdir` and `stat` (the swallowed `ENOENT` race at line 124-126);
`desc` reverses the raw listing before the stats are taken. -/
def sortedItems (files : List String) (stat : String → Option Nat) (desc : Bool) :
    List KeyItem :=
  sortByKey ((if desc then files.reverse else files).filterMap
    (fun f => (stat f).map (fun sz => KeyItem.mk (parseName f) sz)))

/-- JavaScript truthiness of the optional string `exclusiveStartKey`:
`undefined` and the empty string are falsy. -/
def jsTruthyStr : Option String → Bool
  | none => false
  | some s => s ≠ ""

/-- Number of leading sorted items dropped by the cursor logic
(key_value_store.js:136-140): nothing when the cursor is falsy or absent
from the listing, everything up to and including the first match otherwise. -/
def dropCountFn (its : List KeyItem) : Option String → Nat
  | none => 0
  | some k =>
    if k = "" then 0
    else
      match its.findIdx? (fun it => it.key == k) with
      | some i => i + 1
      | none => 0

/-- The object returned by `listKeys` (key_value_store.js:152-159). -/
structure ListKeysResult where
  count : Nat
  limit : Nat
  exclusiveStartKey : Option String
  isTruncated : Bool
  nextExclusiveStartKey : Option String
  items : List KeyItem
deriving DecidableEq, Repr

/-- `limitedItems` (key_value_store.js:142): the sorted items with the
cursor prefix dropped and the limit applied. -/
def pageItems (files : List String) (stat : String → Option Nat) (lim : Nat)
    (cur : Option String) (desc : Bool) : List KeyItem :=
  ((sortedItems files stat desc).drop
    (dropCountFn (sortedItems files stat desc) cur)).take lim

/-- `nextExclusiveStartKey` (key_value_store.js:147-149) in the non-crashing
cases: `undefined` when the last page item is the last array slot of the
full sorted listing (reference equality of slots, i.e. index equality),
otherwise the last page item's key. -/
def nextKeyOf (files : List String) (stat : String → Option Nat) (lim : Nat)
    (cur : Option String) (desc : Bool) : Option String :=
  if dropCountFn (sortedItems files stat desc) cur +
      (pageItems files stat lim cur desc).length = (sortedItems files stat desc).length then
    none
  else some (((pageItems files stat lim cur desc).getLast?.getD (KeyItem.mk "" 0)).key)

/-- `listKeys` (key_value_store.js:90-160) for an existing store directory.
`files` is the raw `readdir` order and `stat` gives each file's size (with
`none` for a mid-scan vanish).  `lastItemInStore === lastSelectedItem` is
reference equality of array slots, i.e. equality of indices into the sorted
`items` array; when the page is empty but the store is not, the code
dereferences `lastSelectedItem.key` on `undefined`, which raises a
`TypeError`. -/
def listKeys (files : List String) (stat : String → Option Nat) (lim : Nat)
    (cur : Option String) (desc : Bool) : Except JsErr ListKeysResult :=
  if (sortedItems files stat desc).length ≠ 0 ∧ (pageItems files stat lim cur desc).length = 0 then
    .error undefinedKeyErr
  else
    .ok ⟨(sortedItems files stat desc).length, lim, cur,
      !(jsTruthyStr (nextKeyOf files stat lim cur desc)),
      nextKeyOf files stat lim cur desc, pageItems files stat lim cur desc⟩

example :
    listKeys ["a.json", "b.json"] (fun _ => some 0) 1 none false =
      .ok ⟨2, 1, none, false, some "a", [⟨"a", 0⟩]⟩ := by decide

example :
    listKeys ["a.json", "b.json"] (fun _ => some 0) 1 (some "a") false =
      .ok ⟨2, 1, some "a", true, none, [⟨"b", 0⟩]⟩ := by decide

example :
    listKeys ["a.json", "b.json"] (fun _ => some 0) 1000 (some "b") false =
      .error undefinedKeyErr := by decide

example : parseName "a.json" = "a" := by decide
example : parseName ".json" = ".json" := by decide
example : parseName "a..json" = "a." := by decide
example : parseName "abc" = "abc" := by decide

theorem sortByKey_perm (l : List KeyItem) : List.Perm (sortByKey l) l :=
  List.perm_insertionSort keyLe l

theorem sortByKey_sorted (l : List KeyItem) : (sortByKey l).Pairwise keyLe :=
  List.sorted_insertionSort keyLe l

theorem parseName_ne_empty {f : String} (h : f ≠ "") : parseName f ≠ "" := by
  unfold parseName
  split
  case isTrue hc =>
    obtain ⟨-, hany⟩ := hc
    obtain ⟨c, hmem, -⟩ := List.any_eq_true.mp hany
    intro he
    have hdata : f.data.take (stemLen f) = [] := congrArg String.data he
    rw [hdata] at hmem
    exact List.not_mem_nil c hmem
  case isFalse => exact h

theorem key_ne_empty_of_mem_sortedItems {files : List String}
    {stat : String → Option Nat} {desc : Bool} {it : KeyItem}
    (hne : ∀ f ∈ files, f ≠ "")
    (hmem : it ∈ sortedItems files stat desc) : it.key ≠ "" := by
  unfold sortedItems at hmem
  obtain ⟨f, hf, hval⟩ := List.mem_filterMap.mp ((sortByKey_perm _).subset hmem)
  have hfmem : f ∈ files := by
    cases desc with
    | false => simpa using hf
    | true => simpa using List.mem_reverse.mp (by simpa using hf)
  cases hstat : stat f with
  | none => rw [hstat] at hval; simp at hval
  | some sz =>
    rw [hstat] at hval
    simp only [Option.map_some', Option.some.injEq] at hval
    rw [← hval]
    exact parseName_ne_empty (hne f hfmem)

/-- Extracting the page from a successful `listKeys` call: the items
returned are the sorted items with the cursor prefix dropped and the limit
applied. -/
theorem listKeys_ok_items {files : List String} {stat : String → Option Nat}
    {lim : Nat} {cur : Option String} {desc : Bool} {r : ListKeysResult}
    (hok : listKeys files stat lim cur desc = .ok r) :
    r.items = pageItems files stat lim cur desc := by
  unfold listKeys at hok
  split at hok
  · exact absurd hok (by simp)
  · simp only [Except.ok.injEq] at hok
    rw [← hok]

/-- C1 evaluation at the failing input: with keys `a`, `b` and page size 1,
the first (non-final) page comes back with `isTruncated = false` and the
second (final) page with `isTruncated = true` — the polarity is the
opposite of the claimed contract. -/
theorem listKeys_isTruncated_polarity_at_failing_input :
    listKeys ["a.json", "b.json"] (fun _ => some 0) 1 none false =
      .ok ⟨2, 1, none, false, some "a", [⟨"a", 0⟩]⟩ ∧
    listKeys ["a.json", "b.json"] (fun _ => some 0) 1 (some "a") false =
      .ok ⟨2, 1, some "a", true, none, [⟨"b", 0⟩]⟩ := by
  exact ⟨by decide, by decide⟩

/-- C2 counterexample: calling `listKeys` with `exclusiveStartKey = "b"` on
the store `{a, b}` does not complete with an empty page — it raises the
`TypeError` from dereferencing `lastSelectedItem.key` on `undefined`. -/
theorem listKeys_lastKey_cursor_counterexample :
    listKeys ["a.json", "b.json"] (fun _ => some 0) 1000 (some "b") false =
      .error undefinedKeyErr := by decide

/-- C2 amended: for every non-empty store, when the cursor is present and is
the last (hence lexically greatest, uniquely so) sorted key, `listKeys`
raises the undefined-dereference `TypeError` instead of returning an empty
page. -/
theorem listKeys_lastKey_cursor_raises (files : List String)
    (stat : String → Option Nat) (lim : Nat) (k : String) (i : Nat)
    (hk : k ≠ "")
    (hfi : (sortedItems files stat false).findIdx? (fun it => it.key == k) = some i)
    (hlast : i + 1 = (sortedItems files stat false).length) :
    listKeys files stat lim (some k) false = .error undefinedKeyErr := by
  have hd : dropCountFn (sortedItems files stat false) (some k) = i + 1 := by
    simp [dropCountFn, hk, hfi]
  have hpage : pageItems files stat lim (some k) false = [] := by
    unfold pageItems
    rw [hd, hlast, List.drop_length, List.take_nil]
  have hlen : (sortedItems files stat false).length ≠ 0 := by omega
  unfold listKeys
  rw [if_pos ⟨hlen, by simp [hpage]⟩]

theorem listKeys_lastKey_cursor_raises_witness :
    listKeys ["a.json", "b.json"] (fun _ => some 0) 5 (some "b") false =
      .error undefinedKeyErr :=
  listKeys_lastKey_cursor_raises ["a.json", "b.json"] (fun _ => some 0) 5 "b" 1
    (by decide) (by decide) (by decide)

/-- C4: the cursor logic drops exactly the sorted prefix up to and including
the first item whose key equals `exclusiveStartKey` before the limit is
applied, and drops nothing when the cursor key is absent from the store. -/
theorem listKeys_cursor_drop (files : List String) (stat : String → Option Nat)
    (lim : Nat) (k : String) (i : Nat) (r : ListKeysResult)
    (hne : ∀ f ∈ files, f ≠ "") :
    ((sortedItems files stat false).findIdx? (fun it => it.key == k) = some i →
      listKeys files stat lim (some k) false = .ok r →
      r.items = ((sortedItems files stat false).drop (i + 1)).take lim) ∧
    ((sortedItems files stat false).findIdx? (fun it => it.key == k) = none →
      listKeys files stat lim (some k) false = .ok r →
      r.items = (sortedItems files stat false).take lim) := by
  constructor
  · intro hfi hok
    have hk : k ≠ "" := by
      obtain ⟨hi, hp, -⟩ := List.findIdx?_eq_some_iff_getElem.mp hfi
      have hkeq : ((sortedItems files stat false)[i]).key = k := by
        simpa using hp
      rw [← hkeq]
      exact key_ne_empty_of_mem_sortedItems hne (List.getElem_mem hi)
    have hd : dropCountFn (sortedItems files stat false) (some k) = i + 1 := by
      simp [dropCountFn, hk, hfi]
    rw [listKeys_ok_items hok]
    unfold pageItems
    rw [hd]
  · intro hfi hok
    have hd : dropCountFn (sortedItems files stat false) (some k) = 0 := by
      by_cases hk : k = "" <;> simp [dropCountFn, hk, hfi]
    rw [listKeys_ok_items hok]
    unfold pageItems
    rw [hd, List.drop_zero]

theorem keyLt_of_keyLe_ne {a b : KeyItem} (hle : keyLe a b) (hne : a.key ≠ b.key) :
    keyLt a b := by
  unfold keyLe strLtB at hle
  unfold keyLt strLtB
  cases hab : charListLt a.key.data b.key.data with
  | true => rfl
  | false => exact absurd (congrArg String.mk (charListLt_connex hab hle)) hne

theorem sortByKey_strictSorted {l : List KeyItem}
    (h : (l.map KeyItem.key).Nodup) : (sortByKey l).Pairwise keyLt := by
  have hperm : List.Perm ((sortByKey l).map KeyItem.key) (l.map KeyItem.key) :=
    (sortByKey_perm l).map KeyItem.key
  have hnd : ((sortByKey l).map KeyItem.key).Nodup := hperm.nodup_iff.mpr h
  have hne : (sortByKey l).Pairwise (fun a b => a.key ≠ b.key) :=
    List.pairwise_map.mp hnd
  exact ((sortByKey_sorted l).and hne).imp (fun hab => keyLt_of_keyLe_ne hab.1 hab.2)

theorem sortedItems_desc_eq (files : List String) (stat : String → Option Nat)
    (hnodup : ((files.filterMap
      (fun f => (stat f).map (fun sz => KeyItem.mk (parseName f) sz))).map KeyItem.key).Nodup) :
    sortedItems files stat true = sortedItems files stat false := by
  have h1 : sortedItems files stat true =
      sortByKey ((files.filterMap
        (fun f => (stat f).map (fun sz => KeyItem.mk (parseName f) sz))).reverse) := by
    unfold sortedItems
    rw [if_pos rfl, List.filterMap_reverse]
  have h0 : sortedItems files stat false =
      sortByKey (files.filterMap
        (fun f => (stat f).map (fun sz => KeyItem.mk (parseName f) sz))) := by
    unfold sortedItems
    rw [if_neg (by simp)]
  rw [h1, h0]
  apply List.eq_of_perm_of_sorted (r := keyLt)
  · exact (sortByKey_perm _).trans ((List.reverse_perm _).trans (sortByKey_perm _).symm)
  · exact sortByKey_strictSorted (by rw [List.map_reverse]; exact List.nodup_reverse.mpr hnodup)
  · exact sortByKey_strictSorted hnodup

/-- C5 counterexample: with the directory listing `[a.json, a.txt]` (two
files sharing the parsed key `a` but with different sizes), the item
sequence returned with `desc = true` differs from the one returned with
`desc = false`, because the stable sort preserves the (reversed) raw order
of equal keys. -/
theorem listKeys_desc_counterexample :
    listKeys ["a.json", "a.txt"]
        (fun f => if f = "a.json" then some 1 else if f = "a.txt" then some 2 else none)
        10 none true ≠
      listKeys ["a.json", "a.txt"]
        (fun f => if f = "a.json" then some 1 else if f = "a.txt" then some 2 else none)
        10 none false := by decide

/-- C5 amended: for every directory listing whose parsed keys are pairwise
distinct (the store invariant of one file per key), `listKeys` returns the
same result for `desc = true` and `desc = false`, and the returned items are
in strictly ascending lexical key order. -/
theorem listKeys_desc_independent (files : List String) (stat : String → Option Nat)
    (lim : Nat) (cur : Option String) (r : ListKeysResult)
    (hnodup : ((files.filterMap
      (fun f => (stat f).map (fun sz => KeyItem.mk (parseName f) sz))).map KeyItem.key).Nodup) :
    listKeys files stat lim cur true = listKeys files stat lim cur false ∧
    (listKeys files stat lim cur false = .ok r → r.items.Pairwise keyLt) := by
  have hs := sortedItems_desc_eq files stat hnodup
  have hp : pageItems files stat lim cur true = pageItems files stat lim cur false := by
    unfold pageItems
    rw [hs]
  have hn : nextKeyOf files stat lim cur true = nextKeyOf files stat lim cur false := by
    unfold nextKeyOf
    rw [hs, hp]
  constructor
  · unfold listKeys
    rw [hs, hp, hn]
  · intro hok
    rw [listKeys_ok_items hok]
    unfold pageItems
    have hstrict : (sortedItems files stat false).Pairwise keyLt := by
      have h0 : sortedItems files stat false =
          sortByKey (files.filterMap
            (fun f => (stat f).map (fun sz => KeyItem.mk (parseName f) sz))) := by
        unfold sortedItems
        rw [if_neg (by simp)]
      rw [h0]
      exact sortByKey_strictSorted hnodup
    exact List.Pairwise.sublist
      ((List.take_sublist _ _).trans (List.drop_sublist _ _)) hstrict

theorem listKeys_desc_independent_witness :
    listKeys ["a.json", "b.json"] (fun _ => some 0) 10 none true =
      listKeys ["a.json", "b.json"] (fun _ => some 0) 10 none false :=
  (listKeys_desc_independent ["a.json", "b.json"] (fun _ => some 0) 10 none
      ⟨0, 0, none, false, none, []⟩ (by decide)).1

theorem listKeys_cursor_drop_witness :
    (⟨2, 1, some "a", true, none, [⟨"b", 0⟩]⟩ : ListKeysResult).items =
      ((sortedItems ["b.json", "a.json"] (fun _ => some 0) false).drop (0 + 1)).take 1 :=
  (listKeys_cursor_drop ["b.json", "a.json"] (fun _ => some 0) 1 "a" 0
      ⟨2, 1, some "a", true, none, [⟨"b", 0⟩]⟩ (by decide)).1
    (by decide) (by decide)

/-! ### Connection cache (database_connection_cache.ts) -/

/-- A `better-sqlite3` database handle as configured by `_createConnection`
(database_connection_cache.ts:59-75).  JavaScript object identity is
modelled by a numeric `id` drawn from a fresh counter; `journalMode` and
`foreignKeys` record the two pragmas applied at creation. -/
structure DbConn where
  id : Nat
  journalMode : String
  foreignKeys : Bool
deriving DecidableEq, Repr

/-- The private `connections` map of `DatabaseConnectionCache`
(database_connection_cache.ts:8), keyed by path in insertion order,
together with the fresh-id counter of the handle model. -/
structure CacheState where
  connections : List (String × DbConn)
  nextId : Nat
deriving DecidableEq, Repr

def initialCache : CacheState := ⟨[], 0⟩

/-- `this.connections.get(path)`. -/
def lookupConn (st : CacheState) (p : String) : Option DbConn :=
  (st.connections.find? (fun e => e.1 == p)).map Prod.snd

/-- `openConnection` (database_connection_cache.ts:10-17): return the cached
handle if present, otherwise create a fresh one — configured at creation
with `PRAGMA journal_mode = WAL` and `PRAGMA foreign_keys = ON` — store it
under the path, and return it. -/
def openConnection (st : CacheState) (p : String) : DbConn × CacheState :=
  match lookupConn st p with
  | some c => (c, st)
  | none =>
    (⟨st.nextId, "wal", true⟩,
      ⟨st.connections ++ [(p, ⟨st.nextId, "wal", true⟩)], st.nextId + 1⟩)

/-- `closeConnection` (database_connection_cache.ts:24-30): close and evict
the handle cached for the path, if any. -/
def closeConnection (st : CacheState) (p : String) : CacheState :=
  ⟨st.connections.filter (fun e => !(e.1 == p)), st.nextId⟩

/-- `closeAllConnections` (database_connection_cache.ts:32-35). -/
def closeAllConnections (st : CacheState) : CacheState :=
  ⟨[], st.nextId⟩

/-- One call against the cache, for reachability of cache states. -/
inductive CacheOp where
  | openOp (p : String)
  | closeOp (p : String)
  | closeAllOp
deriving DecidableEq, Repr

def applyOp (st : CacheState) : CacheOp → CacheState
  | .openOp p => (openConnection st p).2
  | .closeOp p => closeConnection st p
  | .closeAllOp => closeAllConnections st

/-- The cache state reached from a fresh `DatabaseConnectionCache` by a
sequence of calls. -/
def runOps (ops : List CacheOp) : CacheState :=
  ops.foldl applyOp initialCache

/-- Whether an operation closes the connection cached for path `p`. -/
def closesPath (op : CacheOp) (p : String) : Bool :=
  match op with
  | .openOp _ => false
  | .closeOp q => q == p
  | .closeAllOp => true

/-- Cache invariant: at most one entry per path, and every cached handle id
is below the fresh counter. -/
def CacheInv (st : CacheState) : Prop :=
  (st.connections.map Prod.fst).Nodup ∧ ∀ e ∈ st.connections, e.2.id < st.nextId

instance (st : CacheState) : Decidable (CacheInv st) := by
  unfold CacheInv
  infer_instance

theorem lookupConn_eq_none_iff {st : CacheState} {p : String} :
    lookupConn st p = none ↔ st.connections.find? (fun e => e.1 == p) = none := by
  unfold lookupConn
  cases st.connections.find? (fun e => e.1 == p) <;> simp

theorem openConnection_of_some {st : CacheState} {p : String} {c : DbConn}
    (hl : lookupConn st p = some c) : openConnection st p = (c, st) := by
  unfold openConnection
  rw [hl]

theorem openConnection_fst_of_none {st : CacheState} {p : String}
    (hl : lookupConn st p = none) :
    (openConnection st p).1 = ⟨st.nextId, "wal", true⟩ := by
  unfold openConnection
  rw [hl]

theorem openConnection_snd_of_none {st : CacheState} {p : String}
    (hl : lookupConn st p = none) :
    (openConnection st p).2 =
      ⟨st.connections ++ [(p, ⟨st.nextId, "wal", true⟩)], st.nextId + 1⟩ := by
  unfold openConnection
  rw [hl]

theorem applyOp_inv {st : CacheState} (h : CacheInv st) (op : CacheOp) :
    CacheInv (applyOp st op) := by
  obtain ⟨hnd, hid⟩ := h
  cases op with
  | openOp p =>
    show CacheInv (openConnection st p).2
    cases hl : lookupConn st p with
    | some c =>
      rw [openConnection_of_some hl]
      exact ⟨hnd, hid⟩
    | none =>
      rw [openConnection_snd_of_none hl]
      have hfind := lookupConn_eq_none_iff.mp hl
      have hnotin : p ∉ st.connections.map Prod.fst := by
        intro hmem
        obtain ⟨e, hmem2, he⟩ := List.mem_map.mp hmem
        have := List.find?_eq_none.mp hfind e hmem2
        simp [he] at this
      constructor
      · show (List.map Prod.fst (st.connections ++ _)).Nodup
        rw [List.map_append, List.nodup_append]
        exact ⟨hnd, List.nodup_singleton p, by simpa using hnotin⟩
      · intro e hmem
        rcases List.mem_append.mp hmem with hmem2 | hmem2
        · exact Nat.lt_succ_of_lt (hid e hmem2)
        · simp only [List.mem_singleton] at hmem2
          rw [hmem2]
          exact Nat.lt_succ_self _
  | closeOp p =>
    show CacheInv (closeConnection st p)
    constructor
    · exact List.Nodup.sublist ((List.filter_sublist _).map Prod.fst) hnd
    · intro e hmem
      exact hid e (List.mem_of_mem_filter hmem)
  | closeAllOp =>
    show CacheInv (closeAllConnections st)
    exact ⟨List.nodup_nil, fun e hmem => absurd hmem (List.not_mem_nil e)⟩

theorem foldl_inv {st : CacheState} (h : CacheInv st) :
    ∀ ops : List CacheOp, CacheInv (ops.foldl applyOp st)
  | [] => h
  | op :: ops => foldl_inv (applyOp_inv h op) ops

theorem runOps_inv (ops : List CacheOp) : CacheInv (runOps ops) :=
  foldl_inv (by decide) ops

theorem find?_filter_of_imp {α} (l : List α) (pq fp : α → Bool)
    (h : ∀ e, fp e = true → pq e = true) :
    (l.filter pq).find? fp = l.find? fp := by
  induction l with
  | nil => rfl
  | cons e l ih =>
    by_cases hq : pq e = true
    · rw [List.filter_cons_of_pos hq]
      by_cases hp : fp e = true
      · rw [List.find?_cons_of_pos _ hp, List.find?_cons_of_pos _ hp]
      · rw [List.find?_cons_of_neg _ hp, List.find?_cons_of_neg _ hp]
        exact ih
    · have hp : ¬fp e = true := fun hfe => hq (h e hfe)
      rw [List.filter_cons_of_neg hq, List.find?_cons_of_neg _ hp]
      exact ih

theorem lookup_preserved {st : CacheState} {p : String} {c : DbConn}
    (h : lookupConn st p = some c) (op : CacheOp) (hop : closesPath op p = false) :
    lookupConn (applyOp st op) p = some c := by
  cases op with
  | openOp q =>
    show lookupConn (openConnection st q).2 p = some c
    cases hl : lookupConn st q with
    | some c2 =>
      rw [openConnection_of_some hl]
      exact h
    | none =>
      rw [openConnection_snd_of_none hl]
      unfold lookupConn at h ⊢
      cases hfind : st.connections.find? (fun e => e.1 == p) with
      | none => rw [hfind] at h; simp at h
      | some e =>
        rw [hfind] at h
        show (List.find? _ (st.connections ++ _)).map Prod.snd = some c
        rw [List.find?_append, hfind]
        simpa using h
  | closeOp q =>
    show lookupConn (closeConnection st q) p = some c
    have hqp : q ≠ p := by simpa [closesPath] using hop
    have himp : ∀ e : String × DbConn, (e.1 == p) = true → (!(e.1 == q)) = true := by
      intro e he
      have hep : e.1 = p := by simpa using he
      simp [hep, Ne.symm hqp]
    unfold lookupConn at h
    show (List.find? (fun e => e.1 == p)
        (st.connections.filter (fun e => !(e.1 == q)))).map Prod.snd = some c
    rw [find?_filter_of_imp _ _ _ himp]
    exact h
  | closeAllOp => simp [closesPath] at hop

theorem lookup_preserved_run {st : CacheState} {p : String} {c : DbConn}
    (h : lookupConn st p = some c) :
    ∀ ops : List CacheOp, (∀ op ∈ ops, closesPath op p = false) →
      lookupConn (ops.foldl applyOp st) p = some c
  | [], _ => h
  | op :: ops, hops =>
    lookup_preserved_run
      (lookup_preserved h op (hops op (List.mem_cons_self op ops)))
      ops (fun op2 hop2 => hops op2 (List.mem_cons_of_mem op hop2))

theorem openConnection_lookup (st : CacheState) (p : String) :
    lookupConn (openConnection st p).2 p = some (openConnection st p).1 := by
  cases hl : lookupConn st p with
  | some c =>
    rw [openConnection_of_some hl]
    exact hl
  | none =>
    rw [openConnection_snd_of_none hl, openConnection_fst_of_none hl]
    unfold lookupConn
    show (List.find? _ (st.connections ++ _)).map Prod.snd = _
    rw [List.find?_append, lookupConn_eq_none_iff.mp hl]
    simp

theorem openConnection_id_lt {st : CacheState} {p : String} (h : CacheInv st) :
    (openConnection st p).1.id < (openConnection st p).2.nextId := by
  cases hl : lookupConn st p with
  | some c =>
    rw [openConnection_of_some hl]
    unfold lookupConn at hl
    cases hfind : st.connections.find? (fun e => e.1 == p) with
    | none => rw [hfind] at hl; simp at hl
    | some e =>
      rw [hfind] at hl
      simp only [Option.map_some', Option.some.injEq] at hl
      rw [← hl]
      exact h.2 e (List.mem_of_find?_eq_some hfind)
  | none =>
    rw [openConnection_snd_of_none hl, openConnection_fst_of_none hl]
    exact Nat.lt_succ_self _

theorem closeConnection_lookup_none (st : CacheState) (p : String) :
    lookupConn (closeConnection st p) p = none := by
  unfold closeConnection lookupConn
  have hfind : List.find? (fun e => e.1 == p)
      (st.connections.filter (fun e => !(e.1 == p))) = none := by
    rw [List.find?_eq_none]
    intro e hmem
    have := List.of_mem_filter hmem
    simpa using this
  show (List.find? _ (st.connections.filter _)).map Prod.snd = none
  rw [hfind]
  rfl

/-- C3: from any cache state satisfying the cache invariant, (a) a repeated
`openConnection` for the same path — with arbitrary intervening calls that do
not close that path — returns the identical handle; (b) after
`closeConnection(path)` a subsequent `openConnection(path)` returns a new,
distinct handle freshly configured with WAL journal mode and foreign-key
enforcement; (c) every cache state reachable from a fresh cache holds at
most one handle per path. -/
theorem connectionCache_per_path (st : CacheState) (p : String)
    (ops ops2 : List CacheOp)
    (hInv : CacheInv st)
    (hops : ∀ op ∈ ops, closesPath op p = false) :
    (openConnection (ops.foldl applyOp (openConnection st p).2) p).1 =
      (openConnection st p).1 ∧
    (openConnection (closeConnection (openConnection st p).2 p) p).1 ≠
      (openConnection st p).1 ∧
    (openConnection (closeConnection (openConnection st p).2 p) p).1.journalMode = "wal" ∧
    (openConnection (closeConnection (openConnection st p).2 p) p).1.foreignKeys = true ∧
    ((runOps ops2).connections.map Prod.fst).Nodup := by
  have hfst : (openConnection (closeConnection (openConnection st p).2 p) p).1 =
      ⟨(openConnection st p).2.nextId, "wal", true⟩ := by
    rw [openConnection_fst_of_none (closeConnection_lookup_none _ _)]
    rfl
  refine ⟨?_, ?_, ?_, ?_, (runOps_inv ops2).1⟩
  · have hl1 := openConnection_lookup st p
    have hrun := lookup_preserved_run hl1 ops hops
    rw [openConnection_of_some hrun]
  · rw [hfst]
    intro heq
    have hid := congrArg DbConn.id heq
    have hlt := openConnection_id_lt (p := p) hInv
    simp only at hid
    omega
  · rw [hfst]
  · rw [hfst]

theorem connectionCache_per_path_witness :
    (openConnection ([CacheOp.openOp "other"].foldl applyOp
        (openConnection initialCache "db").2) "db").1 =
      (openConnection initialCache "db").1 ∧
    (openConnection (closeConnection (openConnection initialCache "db").2 "db") "db").1 ≠
      (openConnection initialCache "db").1 ∧
    (openConnection (closeConnection (openConnection initialCache "db").2 "db") "db").1.journalMode
      = "wal" ∧
    (openConnection (closeConnection (openConnection initialCache "db").2 "db") "db").1.foreignKeys
      = true ∧
    ((runOps [CacheOp.openOp "a", CacheOp.openOp "b", CacheOp.closeOp "a",
        CacheOp.openOp "a"]).connections.map Prod.fst).Nodup :=
  connectionCache_per_path initialCache "db" [CacheOp.openOp "other"]
    [CacheOp.openOp "a", CacheOp.openOp "b", CacheOp.closeOp "a", CacheOp.openOp "a"]
    (by decide) (by decide)

/-! ### Record files, key lookup and the mime mapping (key_value_store.js) -/

/-- Contents of one record file on disk. `fs.writeFile` writes a string as
its UTF-8 bytes and a buffer/stream as raw bytes; keeping the two as
constructors makes byte-exact round-trips plain equalities. -/
inductive FileData where
  | text (s : String)
  | bytes (bs : List Nat)
deriving DecidableEq, Repr

/-- A store directory: `none` when the directory does not exist, otherwise
the files (name, contents) in raw directory order. -/
abbrev StoreDir := Option (List (String × FileData))

def DEFAULT_LOCAL_FILE_EXTENSION : String := "bin"

/-- key_value_store.js:14. -/
def COMMON_LOCAL_FILE_EXTENSIONS : List String :=
  ["json", "jpeg", "png", "html", "jpg", "bin", "txt", "xml", "pdf", "mp3", "js", "css", "csv"]

/-- `_handleFile` (key_value_store.js:323-332) with `_invokeHandler`
(334-342) and `_findFileNameByKey` (351-359), for a handler modelled as a
partial function on file names (`none` is the `ENOENT` that
`_invokeHandler` swallows): probe the key joined with each common extension
in order; on miss, list the directory and take the first file whose parsed
name equals the key; a missing store directory surfaces as the 404 raised
by `_findFileNameByKey`. -/
def handleFile {α : Type} (storeName : String) (dirNames : Option (List String))
    (h : String → Option α) (key : String) : Except JsErr (Option (α × String)) :=
  match COMMON_LOCAL_FILE_EXTENSIONS.findSome?
      (fun e => (h (key ++ "." ++ e)).map (fun v => (v, key ++ "." ++ e))) with
  | some r => .ok (some r)
  | none =>
    match dirNames with
    | none => .error (storeNotFoundErr storeName)
    | some files =>
      match files.find? (fun f => parseName f == key) with
      | none => .ok none
      | some f => .ok ((h f).map (fun v => (v, f)))

def dirNamesOf (dir : StoreDir) : Option (List String) :=
  dir.map (fun files => files.map Prod.fst)

/-- The `fs.unlink` handler over a store directory: succeeds, returning the
directory without the file, exactly when the file exists. -/
def unlinkOp (dir : StoreDir) : String → Option (List (String × FileData)) :=
  fun f => dir.bind (fun files =>
    if files.any (fun e => e.1 == f) then some (files.filter (fun e => !(e.1 == f)))
    else none)

/-- The `fs.readFile` handler over a store directory. -/
def readFileOp (dir : StoreDir) : String → Option FileData :=
  fun f => dir.bind (fun files => files.lookup f)

/-- `deleteRecord` (key_value_store.js:265-277): resolve the key via the
lookup strategy and unlink the file; an absent key is not an error; the
missing-store 404 carries code `ENOENT`, so the catch rethrows it
unchanged. -/
def deleteRecord (storeName : String) (dir : StoreDir) (key : String) :
    Except JsErr StoreDir :=
  match handleFile storeName (dirNamesOf dir) (unlinkOp dir) key with
  | .error e => .error e
  | .ok none => .ok dir
  | .ok (some (files2, _)) => .ok (some files2)

/-- The media type of a content-type string as extracted by `mime-types`
(`extension()` keys its lookup on the lowercased part before any `;` or
whitespace). Models the `mime-types` dependency. -/
def mediaTypeOf (ct : String) : String :=
  String.mk (((ct.data.dropWhile (fun c => c = ' ')).takeWhile
    (fun c => c ≠ ';' ∧ c ≠ ' ')).map Char.toLower)

/-- First `mime-db` extension for each media type this development
exercises; everything else is unmapped. Models the `mime-types`
dependency. -/
def extensionByType : String → Option String
  | "application/json" => some "json"
  | "image/jpeg" => some "jpeg"
  | "image/png" => some "png"
  | "text/html" => some "html"
  | "application/octet-stream" => some "bin"
  | "text/plain" => some "txt"
  | "application/xml" => some "xml"
  | "application/pdf" => some "pdf"
  | "audio/mpeg" => some "mpga"
  | "application/javascript" => some "js"
  | "text/css" => some "css"
  | "text/csv" => some "csv"
  | _ => none

/-- `mime.extension(contentType)`. -/
def mimeExtension (ct : String) : Option String := extensionByType (mediaTypeOf ct)

/-- `path.extname`-style extension of a file name (without the dot),
mirroring the dotfile rule of `parseName`. -/
def extOf (f : String) : String :=
  if f.data.contains '.' ∧ (f.data.take (stemLen f)).any (fun c => c ≠ '.') then
    String.mk (f.data.drop (stemLen f + 1))
  else ""

/-- `mime-db` media type for each extension, with the default charset
appended exactly where `mime.contentType` does (for `text/*` and the types
`mime-db` marks as UTF-8). Models the `mime-types` dependency. -/
def typeByExt : String → Option String
  | "json" => some "application/json; charset=utf-8"
  | "jpeg" => some "image/jpeg"
  | "jpg" => some "image/jpeg"
  | "png" => some "image/png"
  | "html" => some "text/html; charset=utf-8"
  | "bin" => some "application/octet-stream"
  | "txt" => some "text/plain; charset=utf-8"
  | "xml" => some "application/xml"
  | "pdf" => some "application/pdf"
  | "mp3" => some "audio/mpeg"
  | "mpga" => some "audio/mpeg"
  | "js" => some "application/javascript; charset=utf-8"
  | "css" => some "text/css; charset=utf-8"
  | "csv" => some "text/csv; charset=utf-8"
  | _ => none

/-- `mime.contentType(fileName)`: `none` models the `false` returned for an
unknown extension. -/
def mimeContentType (fileName : String) : Option String := typeByExt (extOf fileName)

/-- `getRecord` (key_value_store.js:169-206) in raw-buffer mode
(`options.buffer = true`, so the `maybeParseBody` collaborator is not
invoked): resolve the key, read the file, and attach the content type
derived from the resolved file name; `none` (JS `undefined`) when the key
has no file; the store-missing 404 carries `ENOENT` and is rethrown
unchanged. -/
def getRecordBuffer (storeName : String) (dir : StoreDir) (key : String) :
    Except JsErr (Option (String × FileData × Option String)) :=
  match handleFile storeName (dirNamesOf dir) (readFileOp dir) key with
  | .error e => .error e
  | .ok none => .ok none
  | .ok (some (data, fileName)) => .ok (some (key, data, mimeContentType fileName))

example : mimeExtension "application/json; charset=utf-8" = some "json" := by decide
example : mimeContentType "data.json" = some "application/json; charset=utf-8" := by decide
example : extOf "data.json" = "json" := by decide
example : extOf ".json" = "" := by decide

/-! ### JSON values and `JSON.stringify(value, null, 2)` -/

/-- A JSON-representable JavaScript value tree, with arrays and objects as
cons spines so that all recursion stays structural. `jbig` stands for a
`BigInt` inside the value — the one value shape accepted by the `ow`
validation (inside an object) on which `JSON.stringify` throws. -/
inductive Json where
  | jnull
  | jbool (b : Bool)
  | jnum (n : Int)
  | jstr (s : String)
  | jbig
  | jarrNil
  | jarrCons (hd tl : Json)
  | jobjNil
  | jobjCons (k : String) (v tl : Json)
deriving DecidableEq, Repr

/-- `QuoteJSONString` escaping for the common characters (quote, backslash
and the usual control characters). Models the `JSON.stringify` builtin. -/
def escapeChar (c : Char) : List Char :=
  if c = '"' then ['\\', '"']
  else if c = '\\' then ['\\', '\\']
  else if c = '\n' then ['\\', 'n']
  else if c = '\t' then ['\\', 't']
  else if c = '\r' then ['\\', 'r']
  else [c]

def quoteJson (s : String) : String :=
  String.mk ('"' :: s.data.foldr (fun c acc => escapeChar c ++ acc) ['"'])

/-- Bracketed, indented list layout of `JSON.stringify` with a non-empty
gap: empty collections print as the two brackets, non-empty ones put every
part on its own indented line. -/
def joinParts (opening closing stepback ind : String) : List String → String
  | [] => opening ++ closing
  | p :: ps =>
    opening ++ "\n" ++ ind ++ String.intercalate (",\n" ++ ind) (p :: ps) ++
      "\n" ++ stepback ++ closing

mutual
/-- `SerializeJSONProperty` of ECMA-262 with `gap = "  "`, as invoked by
`JSON.stringify(value, null, 2)` (key_value_store.js:237); `none` models the
`TypeError` thrown on a `BigInt`. `ind` is the accumulated indentation. -/
def serializeJson : Json → String → Option String
  | .jnull, _ => some "null"
  | .jbool true, _ => some "true"
  | .jbool false, _ => some "false"
  | .jnum n, _ => some (toString n)
  | .jstr s, _ => some (quoteJson s)
  | .jbig, _ => none
  | .jarrNil, ind => some (joinParts "[" "]" ind (ind ++ "  ") [])
  | .jarrCons hd tl, ind =>
    match serializeJson hd (ind ++ "  "), serializeElems tl (ind ++ "  ") with
    | some s, some ps => some (joinParts "[" "]" ind (ind ++ "  ") (s :: ps))
    | _, _ => none
  | .jobjNil, ind => some (joinParts "\x7b" "\x7d" ind (ind ++ "  ") [])
  | .jobjCons k v tl, ind =>
    match serializeJson v (ind ++ "  "), serializeMembers tl (ind ++ "  ") with
    | some s, some ps =>
      some (joinParts "\x7b" "\x7d" ind (ind ++ "  ") ((quoteJson k ++ ": " ++ s) :: ps))
    | _, _ => none

def serializeElems : Json → String → Option (List String)
  | .jarrCons hd tl, ind =>
    match serializeJson hd ind, serializeElems tl ind with
    | some s, some ps => some (s :: ps)
    | _, _ => none
  | _, _ => some []

def serializeMembers : Json → String → Option (List String)
  | .jobjCons k v tl, ind =>
    match serializeJson v ind, serializeMembers tl ind with
    | some s, some ps => some ((quoteJson k ++ ": " ++ s) :: ps)
    | _, _ => none
  | _, _ => some []
end

/-- `JSON.stringify(value, null, 2)`. -/
def jsonStringify2 (j : Json) : Option String := serializeJson j ""

example :
    jsonStringify2 (.jobjCons "a" (.jnum 1) .jobjNil) =
      some "\x7b\n  \"a\": 1\n\x7d" := by decide

example :
    jsonStringify2 (.jarrCons (.jnum 1) (.jarrCons (.jnum 2) .jarrNil)) =
      some "[\n  1,\n  2\n]" := by decide

example : jsonStringify2 (.jobjCons "a" .jbig .jobjNil) = none := by decide

/-! ### setRecord (key_value_store.js:212-259) -/

/-- A record `value` as accepted by the `ow` validation at
key_value_store.js:213-217 (`null`, string, number or object — buffers and
streams being objects). -/
inductive JsValue where
  | vnull
  | vnum (n : Int)
  | vstr (s : String)
  | vjson (j : Json)
  | vbuffer (bs : List Nat)
  | vstream (bs : List Nat)
deriving DecidableEq, Repr

/-- `isStream(value) || isBuffer(value)` (key_value_store.js:222). -/
def isStreamOrBuffer : JsValue → Bool
  | .vbuffer _ => true
  | .vstream _ => true
  | _ => false

/-- `typeof value === 'string'`. -/
def isStringValue : JsValue → Bool
  | .vstr _ => true
  | _ => false

/-- The JSON tree handed to `JSON.stringify` for a value that is neither a
stream, a buffer nor a string; on the remaining shapes (never reached on
that path) it is the tree of the raw value. -/
def jsonOf : JsValue → Json
  | .vnull => .jnull
  | .vnum n => .jnum n
  | .vjson j => j
  | .vstr s => .jstr s
  | .vbuffer _ => .jnull
  | .vstream _ => .jnull

/-- The data `fs.writeFile`/`createWriteStream` accepts: strings as text,
buffers and streams as raw bytes; any other value makes `fs.writeFile`
throw, which `setRecord` wraps as a write error. -/
def valueToData : JsValue → Option FileData
  | .vstr s => some (.text s)
  | .vbuffer bs => some (.bytes bs)
  | .vstream bs => some (.bytes bs)
  | _ => none

/-- Content-type inference when none is given (key_value_store.js:224-228). -/
def inferContentType (v : JsValue) : String :=
  if isStreamOrBuffer v then "application/octet-stream"
  else if isStringValue v then "text/plain; charset=utf-8"
  else "application/json; charset=utf-8"

def resolvedContentType (value : JsValue) : Option String → String
  | some c => c
  | none => inferContentType value

/-- `mime.extension(contentType) || DEFAULT_LOCAL_FILE_EXTENSION`
(key_value_store.js:230). -/
def resolvedExtension (ct : String) : String :=
  (mimeExtension ct).getD DEFAULT_LOCAL_FILE_EXTENSION

/-- Overwrite-or-append a file in the directory listing. -/
def upsertFile (files : List (String × FileData)) (fname : String) (data : FileData) :
    List (String × FileData) :=
  if files.any (fun e => e.1 == fname) then
    files.map (fun e => if e.1 == fname then (fname, data) else e)
  else files ++ [(fname, data)]

def validationErr : JsErr := ⟨"ArgumentError", "ow validation failed", none⟩

def serializationErr : JsErr :=
  ⟨"Error", "The record value cannot be stringified to JSON. Please provide other content type.", none⟩

/-- The wrapped non-`ENOENT` write failure (key_value_store.js:255). -/
def writeErr (key : String) : JsErr :=
  ⟨"Error", "Error writing file " ++ key, none⟩

/-- `fs.writeFile` into the store directory: `ENOENT` on a missing
directory becomes the 404 (key_value_store.js:252-253). -/
def writeFile (storeName : String) (dir : StoreDir) (fileName : String)
    (data : FileData) : Except JsErr Unit × StoreDir :=
  match dir with
  | none => (.error (storeNotFoundErr storeName), none)
  | some files => (.ok (), some (upsertFile files fileName data))

/-- `setRecord` (key_value_store.js:212-259). Returns the call outcome
together with the resulting store directory (unchanged on failure). -/
def setRecord (storeName : String) (dir : StoreDir) (key : String)
    (value : JsValue) (contentType : Option String) : Except JsErr Unit × StoreDir :=
  if contentType = some "" then (.error validationErr, dir)
  else if resolvedExtension (resolvedContentType value contentType) = "json" ∧
      isStreamOrBuffer value = false ∧ isStringValue value = false then
    match jsonStringify2 (jsonOf value) with
    | none => (.error serializationErr, dir)
    | some s =>
      writeFile storeName dir
        (key ++ "." ++ resolvedExtension (resolvedContentType value contentType)) (.text s)
  else
    match valueToData value with
    | none => (.error (writeErr key), dir)
    | some data =>
      writeFile storeName dir
        (key ++ "." ++ resolvedExtension (resolvedContentType value contentType)) data

/-! ### update and getMetadata (key_value_store.js:44-84) -/

def conflictErr : JsErr := ⟨"Error", "Key-value store name is not unique.", none⟩

def enoentMoveErr : JsErr :=
  ⟨"Error", "ENOENT: no such file or directory", some "ENOENT"⟩

def samePathErr : JsErr :=
  ⟨"Error", "Source and destination must not be the same.", none⟩

def destExistsErr : JsErr := ⟨"Error", "dest already exists.", none⟩

/-- Substring test, modelling JavaScript `RegExp.test` for a literal
pattern. -/
def strContains (s pat : String) : Bool :=
  (List.range (s.data.length + 1)).any (fun i => pat.data.isPrefixOf (s.data.drop i))

/-- The catch clause of `update` (key_value_store.js:74-81): a failure whose
message matches `/dest already exists/` becomes the name-conflict error, an
`ENOENT` failure becomes the store 404, and anything else is rethrown
unchanged. -/
def handleMoveError (storeName : String) (e : JsErr) : JsErr :=
  if strContains e.message "dest already exists" then conflictErr
  else if e.code = some "ENOENT" then storeNotFoundErr storeName
  else e

/-- `fs-extra` `move(src, dest)` without `overwrite` over the set of
existing store directories: the source is stat-ed first (`ENOENT` when
missing), then the same-path check, then the `dest already exists.` check;
on success the directory is renamed. Models the `fs-extra` dependency. -/
def fsMove (dirs : List String) (src dst : String) : Except JsErr (List String) :=
  if src ∉ dirs then .error enoentMoveErr
  else if src = dst then .error samePathErr
  else if dst ∈ dirs then .error destExistsErr
  else .ok (dirs.map (fun d => if d = src then dst else d))

/-- `update` (key_value_store.js:63-84): validate the new name, move the
store directory, and record the new name only after a successful move.
Returns the outcome with the resulting directory set and recorded name. -/
def update (dirs : List String) (storeName : String) (newName : Option String) :
    Except JsErr Unit × List String × String :=
  match newName with
  | none => (.ok (), dirs, storeName)
  | some n =>
    if n = "" then (.error validationErr, dirs, storeName)
    else
      match fsMove dirs storeName n with
      | .ok dirs2 => (.ok (), dirs2, n)
      | .error e => (.error (handleMoveError storeName e), dirs, storeName)

/-- `fs.stat` timestamps of the store directory (milliseconds). -/
structure DirStats where
  atimeMs : Int
  mtimeMs : Int
  birthtimeMs : Int
deriving DecidableEq, Repr

structure StoreMetadata where
  id : String
  name : String
  createdAtMs : Int
  modifiedAtMs : Int
  accessedAtMs : Int
deriving DecidableEq, Repr

/-- `get` (key_value_store.js:44-61): stat the store directory; `ENOENT`
yields `undefined` (a soft miss), any other failure propagates; `accessedAt`
is the later of the access and modification timestamps, and both `id` and
`name` are the store name. -/
def getMetadata (storeName : String) (statRes : Except JsErr DirStats) :
    Except JsErr (Option StoreMetadata) :=
  match statRes with
  | .ok st =>
    .ok (some ⟨storeName, storeName, st.birthtimeMs, st.mtimeMs, max st.atimeMs st.mtimeMs⟩)
  | .error e => if e.code = some "ENOENT" then .ok none else .error e

/-! ### Theorems for the record operations -/

theorem handleFile_none {α} (storeName key : String) (names : List String)
    (h : String → Option α)
    (hprobe : ∀ e ∈ COMMON_LOCAL_FILE_EXTENSIONS, h (key ++ "." ++ e) = none)
    (hscan : ∀ f ∈ names, parseName f ≠ key) :
    handleFile storeName (some names) h key = .ok none := by
  unfold handleFile
  have h1 : COMMON_LOCAL_FILE_EXTENSIONS.findSome?
      (fun e => (h (key ++ "." ++ e)).map (fun v => (v, key ++ "." ++ e))) = none := by
    rw [List.findSome?_eq_none_iff]
    intro e he
    rw [hprobe e he]
    rfl
  rw [h1]
  have h2 : names.find? (fun f => parseName f == key) = none := by
    rw [List.find?_eq_none]
    intro f hf
    simpa using hscan f hf
  show (match names.find? (fun f => parseName f == key) with
    | none => Except.ok none
    | some f => Except.ok (Option.map (fun v => (v, f)) (h f))) = Except.ok none
  rw [h2]

theorem handleFile_dirMissing {α} (storeName key : String) (h : String → Option α)
    (hprobe : ∀ e ∈ COMMON_LOCAL_FILE_EXTENSIONS, h (key ++ "." ++ e) = none) :
    handleFile storeName none h key = .error (storeNotFoundErr storeName) := by
  unfold handleFile
  have h1 : COMMON_LOCAL_FILE_EXTENSIONS.findSome?
      (fun e => (h (key ++ "." ++ e)).map (fun v => (v, key ++ "." ++ e))) = none := by
    rw [List.findSome?_eq_none_iff]
    intro e he
    rw [hprobe e he]
    rfl
  rw [h1]

/-- C6: `deleteRecord` for a key that has no file in an existing store
(no directory entry is the key joined with a common extension, and no entry
parses to the key) succeeds without error and leaves the store unchanged;
`deleteRecord` when the store directory does not exist fails with the
`ENOENT`-coded 404. -/
theorem deleteRecord_missing_key (storeName key : String)
    (files : List (String × FileData))
    (hnofile : ∀ fd ∈ files, parseName fd.1 ≠ key ∧
      ∀ e ∈ COMMON_LOCAL_FILE_EXTENSIONS, fd.1 ≠ key ++ "." ++ e) :
    deleteRecord storeName (some files) key = .ok (some files) ∧
    deleteRecord storeName none key = .error (storeNotFoundErr storeName) := by
  constructor
  · unfold deleteRecord
    have hH : handleFile storeName (dirNamesOf (some files)) (unlinkOp (some files)) key
        = .ok none := by
      show handleFile storeName (some (files.map Prod.fst)) (unlinkOp (some files)) key
        = .ok none
      apply handleFile_none
      · intro e he
        show (if files.any (fun e2 => e2.1 == key ++ "." ++ e) then
            some (files.filter (fun e2 => !(e2.1 == key ++ "." ++ e))) else none) = none
        rw [if_neg]
        intro hany
        obtain ⟨fd, hfd, hbeq⟩ := List.any_eq_true.mp hany
        exact (hnofile fd hfd).2 e he (by simpa using hbeq)
      · intro f hf
        obtain ⟨fd, hfd, rfl⟩ := List.mem_map.mp hf
        exact (hnofile fd hfd).1
    rw [hH]
  · unfold deleteRecord
    have hH : handleFile storeName (dirNamesOf (none : StoreDir)) (unlinkOp none) key
        = .error (storeNotFoundErr storeName) := by
      apply handleFile_dirMissing
      intro e _
      rfl
    rw [hH]

theorem deleteRecord_missing_key_witness :
    deleteRecord "store" (some [("other.json", FileData.text "x")]) "a" =
      .ok (some [("other.json", FileData.text "x")]) ∧
    deleteRecord "store" none "a" = .error (storeNotFoundErr "store") :=
  deleteRecord_missing_key "store" "a" [("other.json", FileData.text "x")] (by decide)

/-- C7: renaming a store fails with the name-conflict error when the
destination directory already exists (leaving the directory set and the
recorded name unchanged), fails with the `ENOENT` 404 when the source store
directory does not exist, and the catch clause rethrows any other failure
unchanged. -/
theorem update_rename_errors (dirs : List String) (storeName n : String) (e : JsErr) :
    (storeName ∈ dirs → n ∈ dirs → n ≠ storeName → n ≠ "" →
      update dirs storeName (some n) = (.error conflictErr, dirs, storeName)) ∧
    (storeName ∉ dirs → n ≠ "" →
      update dirs storeName (some n) =
        (.error (storeNotFoundErr storeName), dirs, storeName)) ∧
    (strContains e.message "dest already exists" = false → e.code ≠ some "ENOENT" →
      handleMoveError storeName e = e) := by
  refine ⟨fun hsrc hdst hne hn0 => ?_, fun hsrc hn0 => ?_, fun h1 h2 => ?_⟩
  · have hmove : fsMove dirs storeName n = .error destExistsErr := by
      unfold fsMove
      rw [if_neg (by simpa using hsrc), if_neg (fun h => hne h.symm), if_pos hdst]
    unfold update
    show (if n = "" then (Except.error validationErr, dirs, storeName)
      else match fsMove dirs storeName n with
        | Except.ok dirs2 => (Except.ok (), dirs2, n)
        | Except.error e2 => (Except.error (handleMoveError storeName e2), dirs, storeName))
      = (Except.error conflictErr, dirs, storeName)
    rw [if_neg hn0, hmove]
    have hcatch : handleMoveError storeName destExistsErr = conflictErr := by
      unfold handleMoveError
      rw [if_pos (by decide)]
    show (Except.error (handleMoveError storeName destExistsErr), dirs, storeName)
      = (Except.error conflictErr, dirs, storeName)
    rw [hcatch]
  · have hmove : fsMove dirs storeName n = .error enoentMoveErr := by
      unfold fsMove
      rw [if_pos hsrc]
    unfold update
    show (if n = "" then (Except.error validationErr, dirs, storeName)
      else match fsMove dirs storeName n with
        | Except.ok dirs2 => (Except.ok (), dirs2, n)
        | Except.error e2 => (Except.error (handleMoveError storeName e2), dirs, storeName))
      = (Except.error (storeNotFoundErr storeName), dirs, storeName)
    rw [if_neg hn0, hmove]
    have hcatch : handleMoveError storeName enoentMoveErr = storeNotFoundErr storeName := by
      unfold handleMoveError
      rw [if_neg (by decide), if_pos (by decide)]
    show (Except.error (handleMoveError storeName enoentMoveErr), dirs, storeName)
      = (Except.error (storeNotFoundErr storeName), dirs, storeName)
    rw [hcatch]
  · unfold handleMoveError
    rw [if_neg (by simp [h1]), if_neg h2]

theorem update_rename_errors_witness :
    update ["s", "t"] "s" (some "t") = (.error conflictErr, ["s", "t"], "s") :=
  (update_rename_errors ["s", "t"] "s" "t" ⟨"Error", "disk failure", none⟩).1
    (by decide) (by decide) (by decide) (by decide)

/-- C10: `get` returns `undefined` (a soft miss, not an error) when the
store directory is missing, propagates any non-`ENOENT` stat failure
unchanged, and on success returns metadata whose `accessedAt` is the later
of the access and modification timestamps and whose `id` and `name` both
equal the store name. -/
theorem getMetadata_soft_miss (storeName : String) (e : JsErr) (st : DirStats) :
    (e.code = some "ENOENT" → getMetadata storeName (.error e) = .ok none) ∧
    (e.code ≠ some "ENOENT" → getMetadata storeName (.error e) = .error e) ∧
    getMetadata storeName (.ok st) =
      .ok (some ⟨storeName, storeName, st.birthtimeMs, st.mtimeMs,
        max st.atimeMs st.mtimeMs⟩) := by
  refine ⟨fun h => ?_, fun h => ?_, rfl⟩
  · show (if e.code = some "ENOENT" then Except.ok none else Except.error e) =
      (.ok none : Except JsErr (Option StoreMetadata))
    rw [if_pos h]
  · show (if e.code = some "ENOENT" then Except.ok none else Except.error e) =
      (.error e : Except JsErr (Option StoreMetadata))
    rw [if_neg h]

theorem getMetadata_soft_miss_witness :
    getMetadata "store" (.error ⟨"Error", "no such dir", some "ENOENT"⟩) = .ok none ∧
    getMetadata "store" (.ok ⟨5, 9, 1⟩) =
      .ok (some ⟨"store", "store", 1, 9, max 5 9⟩) :=
  ⟨(getMetadata_soft_miss "store" ⟨"Error", "no such dir", some "ENOENT"⟩ ⟨5, 9, 1⟩).1 rfl,
    (getMetadata_soft_miss "store" ⟨"Error", "no such dir", some "ENOENT"⟩ ⟨5, 9, 1⟩).2.2⟩

/-- C8: with no explicit content type, `setRecord` behaves exactly as if the
shape-inferred content type had been passed (generic binary for streams and
buffers, plain text for strings, JSON for everything else); and on the JSON
path — extension `json`, value neither stream, buffer nor string — the value
is serialized by `JSON.stringify(value, null, 2)` and written as such, while
a stringify failure surfaces as the user-facing serialization error with the
store untouched and no file written. -/
theorem setRecord_inference (storeName key : String) (dir : StoreDir)
    (v : JsValue) (s : String) :
    (isStreamOrBuffer v = true →
      setRecord storeName dir key v none =
        setRecord storeName dir key v (some "application/octet-stream")) ∧
    (v = .vstr s →
      setRecord storeName dir key v none =
        setRecord storeName dir key v (some "text/plain; charset=utf-8")) ∧
    (isStreamOrBuffer v = false → isStringValue v = false →
      (setRecord storeName dir key v none =
        setRecord storeName dir key v (some "application/json; charset=utf-8")) ∧
      (jsonStringify2 (jsonOf v) = some s →
        setRecord storeName dir key v none =
          writeFile storeName dir (key ++ "." ++ "json") (.text s)) ∧
      (jsonStringify2 (jsonOf v) = none →
        setRecord storeName dir key v none = (.error serializationErr, dir))) := by
  refine ⟨fun hSB => ?_, fun hstr => ?_, fun hSB hstr => ⟨?_, fun hser => ?_, fun hser => ?_⟩⟩
  · have hct : resolvedContentType v none = "application/octet-stream" := by
      simp [resolvedContentType, inferContentType, hSB]
    unfold setRecord
    rw [hct]
    rfl
  · subst hstr
    rfl
  · have hct : resolvedContentType v none = "application/json; charset=utf-8" := by
      simp [resolvedContentType, inferContentType, hSB, hstr]
    unfold setRecord
    rw [hct]
    rfl
  · have hct : resolvedContentType v none = "application/json; charset=utf-8" := by
      simp [resolvedContentType, inferContentType, hSB, hstr]
    unfold setRecord
    rw [hct]
    rw [if_neg (show ¬((none : Option String) = some "") by simp)]
    rw [if_pos (show resolvedExtension "application/json; charset=utf-8" = "json" ∧
      isStreamOrBuffer v = false ∧ isStringValue v = false from ⟨by decide, hSB, hstr⟩)]
    rw [hser]
    rfl
  · have hct : resolvedContentType v none = "application/json; charset=utf-8" := by
      simp [resolvedContentType, inferContentType, hSB, hstr]
    unfold setRecord
    rw [hct]
    rw [if_neg (show ¬((none : Option String) = some "") by simp)]
    rw [if_pos (show resolvedExtension "application/json; charset=utf-8" = "json" ∧
      isStreamOrBuffer v = false ∧ isStringValue v = false from ⟨by decide, hSB, hstr⟩)]
    rw [hser]

theorem setRecord_inference_witness :
    setRecord "s" (some []) "k" (.vjson (.jobjCons "a" (.jnum 1) .jobjNil)) none =
      writeFile "s" (some []) ("k" ++ "." ++ "json") (.text "\x7b\n  \"a\": 1\n\x7d") ∧
    setRecord "s" (some []) "k" (.vjson (.jobjCons "a" .jbig .jobjNil)) none =
      (.error serializationErr, some []) :=
  ⟨((setRecord_inference "s" "k" (some []) (.vjson (.jobjCons "a" (.jnum 1) .jobjNil))
      "\x7b\n  \"a\": 1\n\x7d").2.2 (by decide) (by decide)).2.1 (by decide),
    ((setRecord_inference "s" "k" (some []) (.vjson (.jobjCons "a" .jbig .jobjNil))
      "").2.2 (by decide) (by decide)).2.2 (by decide)⟩

/-! ### Round-trip helpers for C9 -/

theorem str_append_cancel_left {s a b : String} (h : s ++ a = s ++ b) : a = b := by
  have hd := congrArg String.data h
  rw [String.data_append, String.data_append] at hd
  exact congrArg String.mk (List.append_cancel_left hd)

theorem data_append_dot (key ext : String) :
    (key ++ "." ++ ext).data = key.data ++ '.' :: ext.data := by
  rw [String.data_append, String.data_append]
  rw [List.append_assoc]
  rfl

/-- When a written file name parses back to its key, its extension part is
recovered exactly. -/
theorem extOf_append {key ext : String}
    (hkey : parseName (key ++ "." ++ ext) = key) :
    extOf (key ++ "." ++ ext) = ext := by
  have hdata := data_append_dot key ext
  by_cases hc : (key ++ "." ++ ext).data.contains '.' ∧
      ((key ++ "." ++ ext).data.take (stemLen (key ++ "." ++ ext))).any (fun c => c ≠ '.')
  · unfold parseName at hkey
    rw [if_pos hc] at hkey
    have htake : (key ++ "." ++ ext).data.take (stemLen (key ++ "." ++ ext)) = key.data :=
      congrArg String.data hkey
    have hlen1 : ((key ++ "." ++ ext).data.take (stemLen (key ++ "." ++ ext))).length
        = key.data.length := by rw [htake]
    rw [List.length_take, hdata, List.length_append, List.length_cons] at hlen1
    have hn : stemLen (key ++ "." ++ ext) = key.data.length := by omega
    unfold extOf
    rw [if_pos hc, hn, hdata]
    have hdrop : (key.data ++ '.' :: ext.data).drop (key.data.length + 1) = ext.data := by
      rw [show key.data ++ '.' :: ext.data = (key.data ++ ['.']) ++ ext.data by simp]
      rw [show key.data.length + 1 = (key.data ++ ['.']).length by simp]
      exact List.drop_left _ _
    rw [hdrop]
  · unfold parseName at hkey
    rw [if_neg hc] at hkey
    have hlen := congrArg (fun s => s.data.length) hkey
    simp only [hdata, List.length_append, List.length_cons] at hlen
    omega

/-- `findSome?` hits the unique element whose image is defined. -/
theorem findSome?_unique_hit {α β : Type} (a : α) (b : β) (f : α → Option β) :
    ∀ l : List α, a ∈ l → (∀ x ∈ l, x ≠ a → f x = none) → f a = some b →
      l.findSome? f = some b
  | [], hmem, _, _ => absurd hmem (List.not_mem_nil a)
  | x :: l, hmem, hother, hhit => by
    by_cases hx : x = a
    · subst hx
      rw [List.findSome?_cons_of_isSome _ (by simp [hhit])]
      exact hhit
    · rw [List.findSome?_cons_of_isNone _
        (by simp [hother x (List.mem_cons_self x l) hx])]
      have hmem2 : a ∈ l := by
        rcases List.mem_cons.mp hmem with h | h
        · exact absurd h.symm hx
        · exact h
      exact findSome?_unique_hit a b f l hmem2
        (fun y hy => hother y (List.mem_cons_of_mem x hy)) hhit

/-- `find?` returns the designated element when every match equals it. -/
theorem find?_const_of_exists {α : Type} (p : α → Bool) (t : α) :
    ∀ l : List α, (∃ a ∈ l, p a = true) → (∀ a ∈ l, p a = true → a = t) →
      l.find? p = some t
  | [], hex, _ => by
    obtain ⟨a, ha, -⟩ := hex
    exact absurd ha (List.not_mem_nil a)
  | x :: l, hex, huniq => by
    by_cases hx : p x = true
    · rw [List.find?_cons_of_pos _ hx, huniq x (List.mem_cons_self x l) hx]
    · rw [List.find?_cons_of_neg _ hx]
      apply find?_const_of_exists p t l
      · obtain ⟨a, ha, hpa⟩ := hex
        rcases List.mem_cons.mp ha with h | h
        · exact absurd (h ▸ hpa) hx
        · exact ⟨a, h, hpa⟩
      · exact fun a ha => huniq a (List.mem_cons_of_mem x ha)

theorem lookup_upsertFile (fname : String) (data : FileData) :
    ∀ files : List (String × FileData),
      (upsertFile files fname data).lookup fname = some data := by
  intro files
  unfold upsertFile
  by_cases hany : files.any (fun e => e.1 == fname) = true
  · rw [if_pos hany]
    induction files with
    | nil => simp at hany
    | cons e l ih =>
      obtain ⟨a, b⟩ := e
      by_cases he : (a == fname) = true
      · simp only [List.map_cons]
        rw [if_pos he]
        exact List.lookup_cons_self
      · simp only [List.map_cons]
        rw [if_neg he]
        rw [List.lookup_cons]
        have hfa : (fname == a) = false := by
          cases hfa : fname == a with
          | false => rfl
          | true =>
            have hfa2 : fname = a := by simpa using hfa
            rw [← hfa2] at he
            simp at he
        rw [hfa]
        apply ih
        simp only [List.any_cons] at hany
        rcases Bool.or_eq_true_iff.mp hany with h | h
        · exact absurd h he
        · exact h
  · rw [if_neg hany]
    rw [List.lookup_append]
    have hnone : files.lookup fname = none := by
      rw [List.lookup_eq_none_iff]
      intro p hp
      have hf : (p.1 == fname) = false := by
        cases hpf : p.1 == fname with
        | false => rfl
        | true => exact absurd (List.any_eq_true.mpr ⟨p, hp, hpf⟩) hany
      exact bne_iff_ne.mpr (Ne.symm (beq_eq_false_iff_ne.mp hf))
    rw [hnone]
    simp

theorem mem_upsertFile {files : List (String × FileData)} {fname : String}
    {data : FileData} {en : String × FileData}
    (hmem : en ∈ upsertFile files fname data) :
    en.1 = fname ∨ en ∈ files := by
  unfold upsertFile at hmem
  by_cases hany : files.any (fun e => e.1 == fname) = true
  · rw [if_pos hany] at hmem
    obtain ⟨fd, hfd, hmap⟩ := List.mem_map.mp hmem
    by_cases he : (fd.1 == fname) = true
    · rw [if_pos he] at hmap
      left
      rw [← hmap]
    · rw [if_neg he] at hmap
      right
      rw [← hmap]
      exact hfd
  · rw [if_neg hany] at hmem
    rcases List.mem_append.mp hmem with h | h
    · right
      exact h
    · left
      simp only [List.mem_singleton] at h
      rw [h]

theorem fname_mem_upsert_names (files : List (String × FileData)) (fname : String)
    (data : FileData) :
    fname ∈ (upsertFile files fname data).map Prod.fst := by
  unfold upsertFile
  by_cases hany : files.any (fun e => e.1 == fname) = true
  · rw [if_pos hany]
    obtain ⟨fd, hfd, hbeq⟩ := List.any_eq_true.mp hany
    refine List.mem_map.mpr ⟨(fname, data), ?_, rfl⟩
    refine List.mem_map.mpr ⟨fd, hfd, ?_⟩
    rw [if_pos hbeq]
  · rw [if_neg hany]
    rw [List.map_append]
    exact List.mem_append.mpr (Or.inr (by simp))

theorem handleFile_found_common {α : Type} (storeName key ext : String)
    (names : List String) (h : String → Option α) (v : α)
    (hmem : ext ∈ COMMON_LOCAL_FILE_EXTENSIONS)
    (hprobes : ∀ e ∈ COMMON_LOCAL_FILE_EXTENSIONS, e ≠ ext → h (key ++ "." ++ e) = none)
    (hhit : h (key ++ "." ++ ext) = some v) :
    handleFile storeName (some names) h key = .ok (some (v, key ++ "." ++ ext)) := by
  unfold handleFile
  have hfs : COMMON_LOCAL_FILE_EXTENSIONS.findSome?
      (fun e => (h (key ++ "." ++ e)).map (fun w => (w, key ++ "." ++ e))) =
      some (v, key ++ "." ++ ext) := by
    apply findSome?_unique_hit ext (v, key ++ "." ++ ext) _ _ hmem
    · intro x hx hne
      rw [hprobes x hx hne]
      rfl
    · rw [hhit]
      rfl
  rw [hfs]

theorem handleFile_scan_found {α : Type} (storeName key fname : String)
    (names : List String) (h : String → Option α) (v : α)
    (hprobes : ∀ e ∈ COMMON_LOCAL_FILE_EXTENSIONS, h (key ++ "." ++ e) = none)
    (hfind : names.find? (fun f => parseName f == key) = some fname)
    (hhit : h fname = some v) :
    handleFile storeName (some names) h key = .ok (some (v, fname)) := by
  unfold handleFile
  have hfs : COMMON_LOCAL_FILE_EXTENSIONS.findSome?
      (fun e => (h (key ++ "." ++ e)).map (fun w => (w, key ++ "." ++ e))) = none := by
    rw [List.findSome?_eq_none_iff]
    intro e he
    rw [hprobes e he]
    rfl
  rw [hfs]
  show (match names.find? (fun f => parseName f == key) with
    | none => Except.ok none
    | some f => Except.ok (Option.map (fun w => (w, f)) (h f))) = Except.ok (some (v, fname))
  rw [hfind]
  show Except.ok (Option.map (fun w => (w, fname)) (h fname)) = Except.ok (some (v, fname))
  rw [hhit]
  rfl

theorem find?_parseName_upsert (key ext : String) (data : FileData)
    (hkey : parseName (key ++ "." ++ ext) = key)
    (files : List (String × FileData))
    (hscanclean : ∀ fd ∈ files, parseName fd.1 = key → fd.1 = key ++ "." ++ ext) :
    ((upsertFile files (key ++ "." ++ ext) data).map Prod.fst).find?
      (fun f => parseName f == key) = some (key ++ "." ++ ext) := by
  apply find?_const_of_exists
  · exact ⟨key ++ "." ++ ext, fname_mem_upsert_names files _ data, by simp [hkey]⟩
  · intro a ha hpa
    obtain ⟨en, hen, rfl⟩ := List.mem_map.mp ha
    rcases mem_upsertFile hen with h1 | h1
    · exact h1
    · exact hscanclean en h1 (by simpa using hpa)

/-- The content-type/extension pairs the round trip covers: for each of the
common local extensions that `mime.extension` can actually produce, the
canonical content type `mime.contentType` assigns to files carrying it
(`jpg` and `mp3` are unreachable — `mime.extension` yields `jpeg` and
`mpga` for their media types — so `image/jpeg` and `audio/mpeg` are covered
through those extensions), plus the fallback binary pair. -/
def roundTripPairs : List (String × String) :=
  [("application/json; charset=utf-8", "json"),
   ("image/jpeg", "jpeg"),
   ("image/png", "png"),
   ("text/html; charset=utf-8", "html"),
   ("application/octet-stream", "bin"),
   ("text/plain; charset=utf-8", "txt"),
   ("application/xml", "xml"),
   ("application/pdf", "pdf"),
   ("audio/mpeg", "mpga"),
   ("application/javascript; charset=utf-8", "js"),
   ("text/css; charset=utf-8", "css"),
   ("text/csv; charset=utf-8", "csv")]

/-- C9: for every valid key (one whose written file name parses back to it)
and every buffer value, in a store whose other files do not collide with
the key (no stale file under another extension — the invariant of one file
per logical key), `setRecord` with any content type of `roundTripPairs`
writes exactly the given bytes under `key.ext`, and `getRecordBuffer`
returns exactly those bytes with exactly that content type — including the
fallback binary pair and the extensions found only by the full scan. -/
theorem setRecord_getRecord_roundtrip (storeName key : String)
    (files : List (String × FileData)) (bs : List Nat) (ct ext : String)
    (hpair : (ct, ext) ∈ roundTripPairs)
    (hkey : parseName (key ++ "." ++ ext) = key)
    (hprobeclean : ∀ e ∈ COMMON_LOCAL_FILE_EXTENSIONS, e ≠ ext →
      ∀ fd ∈ files, fd.1 ≠ key ++ "." ++ e)
    (hscanclean : ∀ fd ∈ files, parseName fd.1 = key → fd.1 = key ++ "." ++ ext) :
    setRecord storeName (some files) key (.vbuffer bs) (some ct) =
      (.ok (), some (upsertFile files (key ++ "." ++ ext) (.bytes bs))) ∧
    getRecordBuffer storeName
        (some (upsertFile files (key ++ "." ++ ext) (.bytes bs))) key =
      .ok (some (key, .bytes bs, some ct)) := by
  have hall : ∀ p ∈ roundTripPairs,
      mimeExtension p.1 = some p.2 ∧ typeByExt p.2 = some p.1 ∧ p.1 ≠ "" := by decide
  obtain ⟨hext, hctback, hct0⟩ := hall (ct, ext) hpair
  have hre2 : resolvedExtension (resolvedContentType (JsValue.vbuffer bs) (some ct)) = ext := by
    unfold resolvedExtension
    rw [show resolvedContentType (JsValue.vbuffer bs) (some ct) = ct from rfl, hext]
    rfl
  have hread_hit : readFileOp
      (some (upsertFile files (key ++ "." ++ ext) (FileData.bytes bs)))
      (key ++ "." ++ ext) = some (FileData.bytes bs) :=
    lookup_upsertFile _ _ _
  have hread_none : ∀ e ∈ COMMON_LOCAL_FILE_EXTENSIONS, e ≠ ext →
      readFileOp (some (upsertFile files (key ++ "." ++ ext) (FileData.bytes bs)))
        (key ++ "." ++ e) = none := by
    intro e he hne
    show (upsertFile files (key ++ "." ++ ext) (FileData.bytes bs)).lookup
      (key ++ "." ++ e) = none
    rw [List.lookup_eq_none_iff]
    intro p hp
    rcases mem_upsertFile hp with h1 | h1
    · refine bne_iff_ne.mpr (Ne.symm ?_)
      rw [h1]
      intro heq
      exact hne (str_append_cancel_left heq).symm
    · exact bne_iff_ne.mpr (Ne.symm (hprobeclean e he hne p h1))
  have hmc : mimeContentType (key ++ "." ++ ext) = some ct := by
    unfold mimeContentType
    rw [extOf_append hkey, hctback]
  constructor
  · unfold setRecord
    rw [if_neg (show ¬(some ct = some "") by simp [hct0])]
    rw [if_neg (show ¬(resolvedExtension (resolvedContentType (JsValue.vbuffer bs) (some ct))
        = "json" ∧ isStreamOrBuffer (JsValue.vbuffer bs) = false ∧
        isStringValue (JsValue.vbuffer bs) = false) from
      fun hc => by simpa [isStreamOrBuffer] using hc.2.1)]
    rw [hre2]
    rfl
  · by_cases hcommon : ext ∈ COMMON_LOCAL_FILE_EXTENSIONS
    · have hH := handleFile_found_common storeName key ext
        ((upsertFile files (key ++ "." ++ ext) (FileData.bytes bs)).map Prod.fst)
        (readFileOp (some (upsertFile files (key ++ "." ++ ext) (FileData.bytes bs))))
        (FileData.bytes bs) hcommon hread_none hread_hit
      unfold getRecordBuffer
      rw [show dirNamesOf (some (upsertFile files (key ++ "." ++ ext) (FileData.bytes bs))) =
        some ((upsertFile files (key ++ "." ++ ext) (FileData.bytes bs)).map Prod.fst)
        from rfl]
      rw [hH]
      show Except.ok (some (key, FileData.bytes bs, mimeContentType (key ++ "." ++ ext))) =
        Except.ok (some (key, FileData.bytes bs, some ct))
      rw [hmc]
    · have hprobes_all : ∀ e ∈ COMMON_LOCAL_FILE_EXTENSIONS,
          readFileOp (some (upsertFile files (key ++ "." ++ ext) (FileData.bytes bs)))
            (key ++ "." ++ e) = none := by
        intro e he
        exact hread_none e he (fun heq => hcommon (heq ▸ he))
      have hfind := find?_parseName_upsert key ext (FileData.bytes bs) hkey files hscanclean
      have hH := handleFile_scan_found storeName key (key ++ "." ++ ext)
        ((upsertFile files (key ++ "." ++ ext) (FileData.bytes bs)).map Prod.fst)
        (readFileOp (some (upsertFile files (key ++ "." ++ ext) (FileData.bytes bs))))
        (FileData.bytes bs) hprobes_all hfind hread_hit
      unfold getRecordBuffer
      rw [show dirNamesOf (some (upsertFile files (key ++ "." ++ ext) (FileData.bytes bs))) =
        some ((upsertFile files (key ++ "." ++ ext) (FileData.bytes bs)).map Prod.fst)
        from rfl]
      rw [hH]
      show Except.ok (some (key, FileData.bytes bs, mimeContentType (key ++ "." ++ ext))) =
        Except.ok (some (key, FileData.bytes bs, some ct))
      rw [hmc]

theorem setRecord_getRecord_roundtrip_witness :
    setRecord "s" (some []) "k" (.vbuffer [1, 2]) (some "image/png") =
      (.ok (), some (upsertFile [] ("k" ++ "." ++ "png") (.bytes [1, 2]))) ∧
    getRecordBuffer "s" (some (upsertFile [] ("k" ++ "." ++ "png") (.bytes [1, 2]))) "k" =
      .ok (some ("k", .bytes [1, 2], some "image/png")) :=
  setRecord_getRecord_roundtrip "s" "k" [] [1, 2] "image/png" "png"
    (by decide) (by decide) (by decide) (by decide)

end ApifyLocal
